import Mathlib

/-!
Shallow embedding of the activation-key codec from `activation_key_manager.py`
(repository `aktiver/activation-key`).

Modelling conventions:
  - Python byte strings are `List Nat` with every entry `< 256`.
  - Python text strings (the pretty key) are `List Char`.
  - The server secret (a Python `str`) is modelled by the list of bytes of its
    UTF-8 encoding (`server_secret.encode("utf-8")` in the source), since the
    code only ever uses those bytes.
  - The ambient effects of the source are passed explicitly: the cryptographic
    random draws `secrets.randbits(7)` and `secrets.randbits(8)` become the
    parameters `random_7bits` and `filler_byte`, and the wall clock
    `int(time.time())` becomes the parameter `now`.
  - Python exceptions become `Option`/`Except` results.  `int.to_bytes(4,
    "big", signed=False)` raises `OverflowError` outside `[0, 2^32)`, hence
    `intToBytes4 : Int → Option _`.  `decode_novel_key` raises `ValueError`
    with distinct messages; the `KeyError` inductive mirrors those outcomes.
  - `base64.b32encode` / `base64.b32decode` are modelled arithmetically: for an
    input whose length is a multiple of 5 bytes (always 20 here) RFC 4648
    base-32 is exactly the big-endian base-32 digit expansion of the input read
    as a big-endian number, one alphabet character per digit, with no padding.
    The decoder rejects any character outside the RFC 4648 uppercase alphabet,
    as `b32decode` does (lowercase, `0`, `1`, `8`, `9` and misplaced `=` all
    raise `binascii.Error`, a `ValueError`).
-/

/-! ## Big-endian positional number conversions -/

/-- The word modulus 2^32 used by SHA-256 arithmetic. -/
def M32 : Nat := 4294967296

/-- Big-endian base-`b` digit expansion of `N`, zero-padded to width `w`.
With `b = 256` this is Python's `int.to_bytes(w, "big")`; with `b = 32` it is
the digit string underlying RFC 4648 base-32. -/
def beDigits (b : Nat) : Nat → Nat → List Nat
  | 0, _ => []
  | w + 1, N => N / b ^ w % b :: beDigits b w N

/-- Value of a big-endian base-`b` digit list.  With `b = 256` this is
Python's `int.from_bytes(bytes, "big", signed=False)`. -/
def beVal (b : Nat) (ds : List Nat) : Nat :=
  ds.foldl (fun acc d => acc * b + d) 0

/-! ## SHA-256 (the `hashlib.sha256` primitive used through `hmac.new`) -/

/-- Right rotation of a 32-bit word. -/
def rotr32 (n x : Nat) : Nat := (x >>> n) ||| (x <<< (32 - n)) % M32

/-- SHA-256 choice function; `~x` is modelled as `x ^^^ 0xFFFFFFFF` on 32-bit
words. -/
def sha256ch (x y z : Nat) : Nat := (x &&& y) ^^^ ((x ^^^ 0xFFFFFFFF) &&& z)

/-- SHA-256 majority function. -/
def sha256maj (x y z : Nat) : Nat := (x &&& y) ^^^ (x &&& z) ^^^ (y &&& z)

/-- SHA-256 big sigma 0. -/
def bsig0 (x : Nat) : Nat := rotr32 2 x ^^^ rotr32 13 x ^^^ rotr32 22 x

/-- SHA-256 big sigma 1. -/
def bsig1 (x : Nat) : Nat := rotr32 6 x ^^^ rotr32 11 x ^^^ rotr32 25 x

/-- SHA-256 small sigma 0. -/
def ssig0 (x : Nat) : Nat := rotr32 7 x ^^^ rotr32 18 x ^^^ (x >>> 3)

/-- SHA-256 small sigma 1. -/
def ssig1 (x : Nat) : Nat := rotr32 17 x ^^^ rotr32 19 x ^^^ (x >>> 10)

/-- The 64 SHA-256 round constants. -/
def sha256K : List Nat :=
  [1116352408, 1899447441, 3049323471, 3921009573, 961987163,
   1508970993, 2453635748, 2870763221, 3624381080, 310598401,
   607225278, 1426881987, 1925078388, 2162078206, 2614888103,
   3248222580, 3835390401, 4022224774, 264347078, 604807628,
   770255983, 1249150122, 1555081692, 1996064986, 2554220882,
   2821834349, 2952996808, 3210313671, 3336571891, 3584528711,
   113926993, 338241895, 666307205, 773529912, 1294757372,
   1396182291, 1695183700, 1986661051, 2177026350, 2456956037,
   2730485921, 2820302411, 3259730800, 3345764771, 3516065817,
   3600352804, 4094571909, 275423344, 430227734, 506948616,
   659060556, 883997877, 958139571, 1322822218, 1537002063,
   1747873779, 1955562222, 2024104815, 2227730452, 2361852424,
   2428436474, 2756734187, 3204031479, 3329325298]

/-- The SHA-256 initial hash state. -/
def sha256H0 : List Nat :=
  [1779033703, 3144134277, 1013904242, 2773480762,
   1359893119, 2600822924, 528734635, 1541459225]

/-- SHA-256 message padding: append `0x80`, zero bytes up to 56 mod 64, and
the 8-byte big-endian bit length. -/
def sha256pad (msg : List Nat) : List Nat :=
  msg ++ 0x80 :: List.replicate ((119 - msg.length % 64) % 64) 0 ++
    beDigits 256 8 (8 * msg.length)

/-- Split a byte list into 64-byte blocks (fuel-driven structural recursion;
the fuel `l.length` always suffices). -/
def chunks64Go : Nat → List Nat → List (List Nat)
  | 0, _ => []
  | _ + 1, [] => []
  | fuel + 1, x :: xs => (x :: xs).take 64 :: chunks64Go fuel ((x :: xs).drop 64)

/-- Split a byte list into 64-byte blocks. -/
def chunks64 (l : List Nat) : List (List Nat) := chunks64Go l.length l

/-- Read a 64-byte block as 16 big-endian 32-bit words. -/
def wordsOf (block : List Nat) : List Nat :=
  (List.range 16).map (fun i => beVal 256 ((block.drop (4 * i)).take 4))

/-- Extend the message schedule by `count` additional words. -/
def scheduleGo : Nat → List Nat → List Nat
  | 0, w => w
  | count + 1, w =>
      scheduleGo count
        (w ++ [(ssig1 (w.getD (w.length - 2) 0) + w.getD (w.length - 7) 0 +
                ssig0 (w.getD (w.length - 15) 0) + w.getD (w.length - 16) 0) % M32])

/-- The 64-word SHA-256 message schedule of a block. -/
def schedule (block : List Nat) : List Nat := scheduleGo 48 (wordsOf block)

/-- One SHA-256 round: the state is the 8-word list `[a,b,c,d,e,f,g,h]`, `kw`
is the pair of round constant and schedule word. -/
def round256 (state : List Nat) (kw : Nat × Nat) : List Nat :=
  let a := state.getD 0 0
  let b := state.getD 1 0
  let c := state.getD 2 0
  let d := state.getD 3 0
  let e := state.getD 4 0
  let f := state.getD 5 0
  let g := state.getD 6 0
  let h := state.getD 7 0
  let t1 := (h + bsig1 e + sha256ch e f g + kw.1 + kw.2) % M32
  let t2 := (bsig0 a + sha256maj a b c) % M32
  [(t1 + t2) % M32, a, b, c, (d + t1) % M32, e, f, g]

/-- SHA-256 compression of one 64-byte block into the 8-word state. -/
def compress (state : List Nat) (block : List Nat) : List Nat :=
  let t := (sha256K.zip (schedule block)).foldl round256 state
  [(state.getD 0 0 + t.getD 0 0) % M32, (state.getD 1 0 + t.getD 1 0) % M32,
   (state.getD 2 0 + t.getD 2 0) % M32, (state.getD 3 0 + t.getD 3 0) % M32,
   (state.getD 4 0 + t.getD 4 0) % M32, (state.getD 5 0 + t.getD 5 0) % M32,
   (state.getD 6 0 + t.getD 6 0) % M32, (state.getD 7 0 + t.getD 7 0) % M32]

/-- SHA-256 digest of a byte list: 32 bytes. -/
def sha256 (msg : List Nat) : List Nat :=
  let H := (chunks64 (sha256pad msg)).foldl compress sha256H0
  (H.map (beDigits 256 4)).flatten

/-- HMAC-SHA256 (`hmac.new(key, msg, hashlib.sha256).digest()`), block size
64 bytes, ipad `0x36`, opad `0x5C`. -/
def hmacSha256 (key msg : List Nat) : List Nat :=
  let k0 := if 64 < key.length then sha256 key else key
  let kpad := k0 ++ List.replicate (64 - k0.length) 0
  sha256 ((kpad.map (fun b => b ^^^ 0x5C)) ++ sha256 ((kpad.map (fun b => b ^^^ 0x36)) ++ msg))

/-! ## The binary record codec (from `activation_key_manager.py`) -/

/-- Python source: `ONE_YEAR_SECONDS = 365 * 24 * 60 * 60`. -/
def ONE_YEAR_SECONDS : Nat := 365 * 24 * 60 * 60

/-- Python source: `DATA_SIZE = 10`. -/
def DATA_SIZE : Nat := 10

/-- Python source: `SIG_SIZE = 10`. -/
def SIG_SIZE : Nat := 10

/-- Python source: `TOTAL_SIZE = DATA_SIZE + SIG_SIZE`. -/
def TOTAL_SIZE : Nat := DATA_SIZE + SIG_SIZE

/-- Python `n.to_bytes(4, "big", signed=False)`: 4 big-endian bytes for
`0 ≤ n < 2^32`, `OverflowError` (here `none`) otherwise. -/
def intToBytes4 (n : Int) : Option (List Nat) :=
  if 0 ≤ n then
    if n.toNat < 4294967296 then some (beDigits 256 4 n.toNat) else none
  else none

/-- Python `_pack_data`: the 10-byte data block — 4 bytes `created_at`, 4
bytes `expires_at` (both big-endian), one flag byte `(random_7bits << 1) |
agent_bit`, one random filler byte.  The two random draws are explicit
parameters. -/
def pack_data (created_at expires_at : Int) (agent_deployed : Bool)
    (random_7bits filler_byte : Nat) : Option (List Nat) :=
  match intToBytes4 created_at, intToBytes4 expires_at with
  | some created_bytes, some expires_bytes =>
      let agent_bit : Nat := if agent_deployed then 1 else 0
      let flag_byte := (random_7bits <<< 1) ||| agent_bit
      some (created_bytes ++ expires_bytes ++ [flag_byte, filler_byte])
  | _, _ => none

/-- Python `_unpack_data`: reverse of `pack_data`; `ValueError` (here `none`)
when the block is not 10 bytes.  Uses `data_block[0:4]`, `data_block[4:8]`,
and bit 0 of `data_block[8]`; byte 9 is ignored. -/
def unpack_data (data_block : List Nat) : Option (Nat × Nat × Bool) :=
  if data_block.length ≠ 10 then none
  else some (beVal 256 (data_block.take 4),
             beVal 256 ((data_block.drop 4).take 4),
             (data_block.getD 8 0) &&& 1 != 0)

/-- Python `_compute_partial_signature`: the first `SIG_SIZE` bytes of
`HMAC-SHA256(server_secret, data_block)`. -/
def compute_partial_signature (data_block : List Nat) (server_secret : List Nat) : List Nat :=
  (hmacSha256 server_secret data_block).take SIG_SIZE

/-! ## RFC 4648 base-32 (the `base64.b32encode` / `base64.b32decode` pair) -/

/-- The RFC 4648 base-32 alphabet `"ABCDEFGHIJKLMNOPQRSTUVWXYZ234567"`. -/
def b32alphabet : List Char :=
  ['A', 'B', 'C', 'D', 'E', 'F', 'G', 'H', 'I', 'J', 'K', 'L', 'M',
   'N', 'O', 'P', 'Q', 'R', 'S', 'T', 'U', 'V', 'W', 'X', 'Y', 'Z',
   '2', '3', '4', '5', '6', '7']

/-- Character of a base-32 digit: `A`–`Z` for 0–25, `2`–`7` for 26–31. -/
def b32charOfDigit (d : Nat) : Char :=
  if d < 26 then Char.ofNat (65 + d) else Char.ofNat (24 + d)

/-- Digit of a base-32 character; `none` outside the RFC 4648 uppercase
alphabet (as `base64.b32decode` raises there). -/
def b32digitOfChar (c : Char) : Option Nat :=
  if 65 ≤ c.toNat ∧ c.toNat ≤ 90 then some (c.toNat - 65)
  else if 50 ≤ c.toNat ∧ c.toNat ≤ 55 then some (c.toNat - 24)
  else none

/-- Map a fallible function over a list, failing if any element fails (the
character-by-character table lookup inside `b32decode`). -/
def optMap (f : α → Option β) : List α → Option (List β)
  | [] => some []
  | a :: l =>
      match f a, optMap f l with
      | some b, some bs => some (b :: bs)
      | _, _ => none

/-- Python `base64.b32encode` for inputs whose length is a multiple of 5
(always 20 bytes here): the `len * 8 / 5` big-endian base-32 digits of the
input, one alphabet character each, no padding. -/
def b32encode (bs : List Nat) : List Char :=
  (beDigits 32 (bs.length * 8 / 5) (beVal 256 bs)).map b32charOfDigit

/-- Python `base64.b32decode`: requires a length that is a multiple of 8 and
characters from the alphabet, and yields `len * 5 / 8` bytes. -/
def b32decode (cs : List Char) : Option (List Nat) :=
  if cs.length % 8 = 0 then
    match optMap b32digitOfChar cs with
    | some ds => some (beDigits 256 (cs.length * 5 / 8) (beVal 32 ds))
    | none => none
  else none

/-! ## Pretty-key formatting and the key API -/

/-- Python `[final_35[i : i + 5] for i in range(0, 35, 5)]`: the seven
5-character slices of the 35-character string. -/
def pretty_chunks (final_35 : List Char) : List (List Char) :=
  [(final_35.drop 0).take 5, (final_35.drop 5).take 5, (final_35.drop 10).take 5,
   (final_35.drop 15).take 5, (final_35.drop 20).take 5, (final_35.drop 25).take 5,
   (final_35.drop 30).take 5]

/-- Python `"-".join(chunks)`. -/
def pretty_format (final_35 : List Char) : List Char :=
  List.intercalate ['-'] (pretty_chunks final_35)

/-- The record returned by a successful `decode_novel_key` (the Python dict
`{"created_at", "expires_at", "agent_deployed"}`). -/
structure DecodedKey where
  created_at : Nat
  expires_at : Nat
  agent_deployed : Bool
deriving DecidableEq

/-- The distinct `ValueError` outcomes of `decode_novel_key` (and the
`OverflowError` that `_pack_data` would raise, surfacing through the toggle
helpers as `overflow`). -/
inductive KeyError where
  | badLength
  | b32Error
  | lengthMismatch
  | sigMismatch
  | expired
  | overflow
deriving DecidableEq

/-- Python `encode_novel_key`: pack, sign, concatenate, base-32 encode,
append the literal suffix `"AKT"`, and insert a dash every 5 characters. -/
def encode_novel_key (created_at expires_at : Int) (agent_deployed : Bool)
    (server_secret : List Nat) (random_7bits filler_byte : Nat) : Option (List Char) :=
  match pack_data created_at expires_at agent_deployed random_7bits filler_byte with
  | none => none
  | some data_block =>
      let sig_block := compute_partial_signature data_block server_secret
      let combined := data_block ++ sig_block
      let b32_str := b32encode combined
      let final_35 := b32_str ++ ['A', 'K', 'T']
      some (pretty_format final_35)

/-- Body of `decode_novel_key` after `raw = pretty_key.replace("-", "")`:
length check, drop of the last 3 characters (`raw[:-3]`), base-32 decode,
20-byte check, split, constant-time signature comparison, unpack, expiry
check against `now`. -/
def decode_raw (raw : List Char) (server_secret : List Nat) (now : Nat) :
    Except KeyError DecodedKey :=
  if raw.length ≠ 35 then .error .badLength
  else
    let real_b32 := raw.take (raw.length - 3)
    match b32decode real_b32 with
    | none => .error .b32Error
    | some combined =>
        if combined.length ≠ TOTAL_SIZE then .error .lengthMismatch
        else
          let data_block := combined.take DATA_SIZE
          let sig_block := combined.drop DATA_SIZE
          let expected_sig := compute_partial_signature data_block server_secret
          if sig_block ≠ expected_sig then .error .sigMismatch
          else
            match unpack_data data_block with
            | none => .error .lengthMismatch
            | some (created_at, expires_at, agent_deployed) =>
                if now > expires_at then .error .expired
                else .ok ⟨created_at, expires_at, agent_deployed⟩

/-- Python `decode_novel_key`: remove every dash, then `decode_raw`.  The
wall clock `int(time.time())` is the explicit parameter `now`. -/
def decode_novel_key (pretty_key : List Char) (server_secret : List Nat) (now : Nat) :
    Except KeyError DecodedKey :=
  decode_raw (pretty_key.filter (fun c => c != '-')) server_secret now

/-- Python `create_novel_activation_key`: a fresh key with
`created_at = now`, `expires_at = now + ONE_YEAR_SECONDS`,
`agent_deployed = False`. -/
def create_novel_activation_key (server_secret : List Nat)
    (now random_7bits filler_byte : Nat) : Option (List Char) :=
  encode_novel_key (now : Int) ((now + ONE_YEAR_SECONDS : Nat) : Int) false
    server_secret random_7bits filler_byte

/-- Python `set_agent_deployed`: decode, then re-encode with the flag forced
true.  The `overflow` branch mirrors the `OverflowError` `encode_novel_key`
would raise; it is unreachable because decoded timestamps always fit in 4
bytes. -/
def set_agent_deployed (novel_key : List Char) (server_secret : List Nat)
    (now random_7bits filler_byte : Nat) : Except KeyError (List Char) :=
  match decode_novel_key novel_key server_secret now with
  | .error e => .error e
  | .ok info =>
      match encode_novel_key (info.created_at : Int) (info.expires_at : Int) true
          server_secret random_7bits filler_byte with
      | some k => .ok k
      | none => .error .overflow

/-- Python `set_agent_down`: decode, then re-encode with the flag forced
false. -/
def set_agent_down (novel_key : List Char) (server_secret : List Nat)
    (now random_7bits filler_byte : Nat) : Except KeyError (List Char) :=
  match decode_novel_key novel_key server_secret now with
  | .error e => .error e
  | .ok info =>
      match encode_novel_key (info.created_at : Int) (info.expires_at : Int) false
          server_secret random_7bits filler_byte with
      | some k => .ok k
      | none => .error .overflow

/-- A concrete key used to instantiate theorems: issued with
`created_at = 5`, `expires_at = 10`, `agent_deployed = false`, empty secret,
random draws 3 and 7. -/
def wkey : List Char := (encode_novel_key 5 10 false [] 3 7).getD []

/-! ## Arithmetic facts about the digit conversions -/

/-- `beDigits` always produces exactly `w` digits. -/
theorem beDigits_length (b w N : Nat) : (beDigits b w N).length = w := by
  induction w with
  | zero => rfl
  | succ w ih => simp [beDigits, ih]

/-- Every digit produced by `beDigits` is below the base. -/
theorem beDigits_lt (b w N : Nat) (hb : 0 < b) : ∀ x ∈ beDigits b w N, x < b := by
  induction w with
  | zero => simp [beDigits]
  | succ w ih =>
    intro x hx
    rcases List.mem_cons.mp hx with h | h
    · subst h; exact Nat.mod_lt _ hb
    · exact ih x h

theorem beVal_go (b : Nat) (ds : List Nat) (a : Nat) :
    ds.foldl (fun acc d => acc * b + d) a =
      a * b ^ ds.length + ds.foldl (fun acc d => acc * b + d) 0 := by
  induction ds generalizing a with
  | nil => simp
  | cons d tl ih =>
    simp only [List.foldl_cons, List.length_cons, Nat.zero_mul, Nat.zero_add]
    rw [ih (a * b + d), ih d]
    ring

/-- Unfolding of `beVal` on a cons: the head carries weight `b ^ tail length`. -/
theorem beVal_cons (b d : Nat) (ds : List Nat) :
    beVal b (d :: ds) = d * b ^ ds.length + beVal b ds := by
  unfold beVal
  simp only [List.foldl_cons, Nat.zero_mul, Nat.zero_add]
  exact beVal_go b ds d

/-- The value of a digit list is below `base ^ length`. -/
theorem beVal_lt (b : Nat) (ds : List Nat) (hb : 0 < b) (h : ∀ x ∈ ds, x < b) :
    beVal b ds < b ^ ds.length := by
  induction ds with
  | nil => simpa [beVal] using Nat.one_pos
  | cons d tl ih =>
    rw [beVal_cons, List.length_cons]
    have hd : d < b := h d (by simp)
    have htl : beVal b tl < b ^ tl.length := ih (fun x hx => h x (by simp [hx]))
    calc d * b ^ tl.length + beVal b tl < d * b ^ tl.length + b ^ tl.length := by omega
      _ = (d + 1) * b ^ tl.length := by ring
      _ ≤ b * b ^ tl.length := Nat.mul_le_mul_right _ hd
      _ = b ^ (tl.length + 1) := by ring

/-- Recomposing the digit expansion gives back the number modulo `b ^ w`. -/
theorem beVal_beDigits (b w N : Nat) (hb : 0 < b) :
    beVal b (beDigits b w N) = N % b ^ w := by
  induction w with
  | zero => simp [beDigits, beVal, Nat.mod_one]
  | succ w ih =>
    rw [show beDigits b (w + 1) N = N / b ^ w % b :: beDigits b w N from rfl,
        beVal_cons, beDigits_length, ih, pow_succ, Nat.mod_mul]
    ring

/-- Digits of width `w` ignore any multiple of `b ^ w` added to the number. -/
theorem beDigits_add_mul (b : Nat) (hb : 0 < b) :
    ∀ (w R d : Nat), beDigits b w (R + b ^ w * d) = beDigits b w R := by
  intro w
  induction w with
  | zero => intro R d; rfl
  | succ w ih =>
    intro R d
    show (R + b ^ (w + 1) * d) / b ^ w % b :: beDigits b w (R + b ^ (w + 1) * d) =
      R / b ^ w % b :: beDigits b w R
    have hsplit : b ^ (w + 1) * d = b ^ w * (b * d) := by ring
    congr 1
    · rw [hsplit, Nat.add_mul_div_left _ _ (pow_pos hb w), Nat.add_mul_mod_self_left]
    · rw [hsplit, ih R (b * d)]

/-- Expanding the value of a digit list (all digits in range) gives back the
digit list. -/
theorem beDigits_beVal (b : Nat) (ds : List Nat) (hb : 0 < b) (h : ∀ x ∈ ds, x < b) :
    beDigits b ds.length (beVal b ds) = ds := by
  induction ds with
  | nil => rfl
  | cons d tl ih =>
    have hd : d < b := h d (by simp)
    have htl : ∀ x ∈ tl, x < b := fun x hx => h x (by simp [hx])
    have hR : beVal b tl < b ^ tl.length := beVal_lt b tl hb htl
    rw [List.length_cons, beVal_cons]
    show (d * b ^ tl.length + beVal b tl) / b ^ tl.length % b ::
        beDigits b tl.length (d * b ^ tl.length + beVal b tl) = d :: tl
    congr 1
    · rw [show d * b ^ tl.length + beVal b tl = beVal b tl + b ^ tl.length * d by ring,
          Nat.add_mul_div_left _ _ (pow_pos hb _), Nat.div_eq_of_lt hR]
      simpa using Nat.mod_eq_of_lt hd
    · rw [show d * b ^ tl.length + beVal b tl = beVal b tl + b ^ tl.length * d by ring,
          beDigits_add_mul b hb, ih htl]

/-! ## Shape facts about SHA-256 and the truncated signature -/

/-- The compression function always returns an 8-word state. -/
theorem compress_length (state block : List Nat) : (compress state block).length = 8 := rfl

theorem foldl_compress_length (bs : List (List Nat)) (state : List Nat) :
    (bs.foldl compress state).length = 8 ∨ bs = [] := by
  induction bs generalizing state with
  | nil => exact Or.inr rfl
  | cons blk tl ih =>
    left
    simp only [List.foldl_cons]
    rcases ih (compress state blk) with h | h
    · exact h
    · subst h; exact compress_length state blk

theorem flatten_map_beDigits_length (H : List Nat) :
    ((H.map (beDigits 256 4)).flatten).length = 4 * H.length := by
  induction H with
  | nil => rfl
  | cons w tl ih => simp only [List.map_cons, List.flatten_cons, List.length_append,
      List.length_cons, beDigits_length, ih]; omega

/-- SHA-256 digests are exactly 32 bytes. -/
theorem sha256_length (msg : List Nat) : (sha256 msg).length = 32 := by
  show ((((chunks64 (sha256pad msg)).foldl compress sha256H0).map (beDigits 256 4)).flatten).length = 32
  rw [flatten_map_beDigits_length]
  rcases foldl_compress_length (chunks64 (sha256pad msg)) sha256H0 with h | h
  · rw [h]
  · rw [h]; rfl

/-- SHA-256 digests consist of bytes. -/
theorem sha256_lt (msg : List Nat) : ∀ x ∈ sha256 msg, x < 256 := by
  intro x hx
  have hx' : x ∈ ((((chunks64 (sha256pad msg)).foldl compress sha256H0).map
      (beDigits 256 4)).flatten) := hx
  obtain ⟨l, hl, hxl⟩ := List.mem_flatten.mp hx'
  obtain ⟨w, -, rfl⟩ := List.mem_map.mp hl
  exact beDigits_lt _ _ _ (by norm_num) x hxl

/-- HMAC-SHA256 digests are exactly 32 bytes. -/
theorem hmacSha256_length (key msg : List Nat) : (hmacSha256 key msg).length = 32 :=
  sha256_length _

/-- The truncated signature is exactly 10 bytes. -/
theorem sig_length (data_block server_secret : List Nat) :
    (compute_partial_signature data_block server_secret).length = 10 := by
  unfold compute_partial_signature SIG_SIZE
  rw [List.length_take, hmacSha256_length]
  rfl

/-- The truncated signature consists of bytes. -/
theorem sig_lt (data_block server_secret : List Nat) :
    ∀ x ∈ compute_partial_signature data_block server_secret, x < 256 := by
  intro x hx
  exact sha256_lt _ x (List.take_subset _ _ hx)

/-! ## Small decidable facts about the flag byte and the base-32 alphabet -/

/-- Bit 0 of the flag byte recovers the agent bit. -/
theorem flag_and_one : ∀ r < 128, ∀ a ≤ 1, ((r <<< 1) ||| a) &&& 1 = a := by decide

/-- The flag byte is a byte. -/
theorem flag_lt256 : ∀ r < 128, ∀ a ≤ 1, (r <<< 1) ||| a < 256 := by decide

/-- Encoding then decoding a base-32 digit is the identity. -/
theorem b32_digit_char : ∀ d < 32, b32digitOfChar (b32charOfDigit d) = some d := by decide

/-- Digit characters lie in the RFC 4648 alphabet. -/
theorem b32_char_mem : ∀ d < 32, b32charOfDigit d ∈ b32alphabet := by decide

/-- No alphabet character is the separator. -/
theorem b32alphabet_ne_dash : ∀ ch ∈ b32alphabet, (ch != '-') = true := by decide

/-- The padding character is not in the alphabet. -/
theorem eq_not_mem_b32alphabet : '=' ∉ b32alphabet := by decide

/-- Successful elementwise decoding of an elementwise-encoded list. -/
theorem optMap_map (f : β → Option α) (g : α → β) (l : List α)
    (h : ∀ a ∈ l, f (g a) = some a) : optMap f (l.map g) = some l := by
  induction l with
  | nil => rfl
  | cons a tl ih =>
    simp only [List.map_cons, optMap, h a (by simp), ih (fun x hx => h x (by simp [hx]))]

/-! ## The pretty-key formatter: explicit form, filtering, membership -/

/-- Explicit appended form of `pretty_format`. -/
theorem pretty_format_eq (s : List Char) :
    pretty_format s =
      (s.drop 0).take 5 ++ '-' :: ((s.drop 5).take 5 ++ '-' :: ((s.drop 10).take 5 ++ '-' :: ((s.drop 15).take 5 ++ '-' :: ((s.drop 20).take 5 ++ '-' :: ((s.drop 25).take 5 ++ '-' :: (s.drop 30).take 5))))) := by
  simp [pretty_format, pretty_chunks, List.intercalate, List.intersperse]

/-- The seven 5-slices of a 35-element list concatenate back to the list. -/
theorem slices_append (s : List Char) (h : s.length = 35) :
    (s.drop 0).take 5 ++ ((s.drop 5).take 5 ++ ((s.drop 10).take 5 ++ ((s.drop 15).take 5 ++ ((s.drop 20).take 5 ++ ((s.drop 25).take 5 ++ (s.drop 30).take 5))))) = s := by
  have h30 : (s.drop 30).take 5 = s.drop 30 :=
    List.take_of_length_le (by simp [List.length_drop, h])
  rw [h30]
  rw [show s.drop 30 = (s.drop 25).drop 5 by rw [List.drop_drop], List.take_append_drop]
  rw [show s.drop 25 = (s.drop 20).drop 5 by rw [List.drop_drop], List.take_append_drop]
  rw [show s.drop 20 = (s.drop 15).drop 5 by rw [List.drop_drop], List.take_append_drop]
  rw [show s.drop 15 = (s.drop 10).drop 5 by rw [List.drop_drop], List.take_append_drop]
  rw [show s.drop 10 = (s.drop 5).drop 5 by rw [List.drop_drop], List.take_append_drop]
  rw [show s.drop 5 = (s.drop 0).drop 5 by rw [List.drop_drop], List.take_append_drop]
  exact List.drop_zero s

/-- Removing the separators from a formatted 35-character dash-free string
gives back the string: `replace("-", "")` inverts the dash insertion. -/
theorem filter_pretty_format (s : List Char) (h35 : s.length = 35)
    (hnd : ∀ c ∈ s, (c != '-') = true) :
    (pretty_format s).filter (fun c => c != '-') = s := by
  have hsub : ∀ (i : Nat), ∀ c ∈ (s.drop i).take 5, (c != '-') = true := fun i c hc =>
    hnd c (List.drop_subset _ _ (List.take_subset _ _ hc))
  rw [pretty_format_eq]
  simp only [List.filter_append, List.filter_cons, show (('-':Char) != '-') = false from rfl,
    Bool.false_eq_true, if_false]
  rw [List.filter_eq_self.mpr (hsub 0), List.filter_eq_self.mpr (hsub 5),
      List.filter_eq_self.mpr (hsub 10), List.filter_eq_self.mpr (hsub 15),
      List.filter_eq_self.mpr (hsub 20), List.filter_eq_self.mpr (hsub 25),
      List.filter_eq_self.mpr (hsub 30)]
  exact slices_append s h35

/-- Every character of a formatted key is a separator or a character of the
underlying 35-character string. -/
theorem mem_pretty_format (s : List Char) (ch : Char) (h : ch ∈ pretty_format s) :
    ch = '-' ∨ ch ∈ s := by
  rw [pretty_format_eq] at h
  simp only [List.mem_append, List.mem_cons] at h
  rcases h with h|h|h|h|h|h|h|h|h|h|h|h|h <;>
    first
      | exact Or.inl h
      | exact Or.inr (List.drop_subset _ _ (List.take_subset _ _ h))

theorem decode_format (db s : List Nat) (now : Nat) (hdb : db.length = 10)
    (hlt : ∀ x ∈ db, x < 256) :
    (b32encode (db ++ compute_partial_signature db s)).length = 32 ∧
    (∀ ch ∈ b32encode (db ++ compute_partial_signature db s), ch ∈ b32alphabet) ∧
    (pretty_format (b32encode (db ++ compute_partial_signature db s) ++ ['A', 'K', 'T'])).filter
        (fun ch => ch != '-') = b32encode (db ++ compute_partial_signature db s) ++ ['A', 'K', 'T'] ∧
    b32decode (b32encode (db ++ compute_partial_signature db s)) = some (db ++ compute_partial_signature db s) ∧
    decode_novel_key (pretty_format (b32encode (db ++ compute_partial_signature db s) ++ ['A', 'K', 'T'])) s now
      = (match unpack_data db with
         | none => Except.error KeyError.lengthMismatch
         | some (ca, ea, ad) =>
             if now > ea then Except.error KeyError.expired else Except.ok ⟨ca, ea, ad⟩) := by
  have hsig_len : (compute_partial_signature db s).length = 10 := sig_length db s
  have hsig_lt := sig_lt db s
  have hcomb_len : (db ++ compute_partial_signature db s).length = 20 := by
    simp [hdb, hsig_len]
  have hcomb_lt : ∀ x ∈ db ++ compute_partial_signature db s, x < 256 := by
    intro x hx
    rcases List.mem_append.mp hx with h | h
    · exact hlt x h
    · exact hsig_lt x h
  have hN : beVal 256 (db ++ compute_partial_signature db s) < 256 ^ 20 := by
    have := beVal_lt 256 _ (by norm_num) hcomb_lt
    rwa [hcomb_len] at this
  have hN32 : beVal 256 (db ++ compute_partial_signature db s) < 32 ^ 32 := by
    calc beVal 256 (db ++ compute_partial_signature db s) < 256 ^ 20 := hN
      _ = 32 ^ 32 := by norm_num
  have hdig : b32encode (db ++ compute_partial_signature db s)
      = (beDigits 32 32 (beVal 256 (db ++ compute_partial_signature db s))).map b32charOfDigit := by
    simp [b32encode, hcomb_len]
  have hdiglt : ∀ x ∈ beDigits 32 32 (beVal 256 (db ++ compute_partial_signature db s)), x < 32 :=
    beDigits_lt _ _ _ (by norm_num)
  have hlen32 : (b32encode (db ++ compute_partial_signature db s)).length = 32 := by
    rw [hdig]; simp [beDigits_length]
  have hmem : ∀ ch ∈ b32encode (db ++ compute_partial_signature db s), ch ∈ b32alphabet := by
    intro ch hch
    rw [hdig] at hch
    obtain ⟨dg, hdg, rfl⟩ := List.mem_map.mp hch
    exact b32_char_mem dg (hdiglt dg hdg)
  have hf35len : (b32encode (db ++ compute_partial_signature db s) ++ ['A', 'K', 'T']).length = 35 := by
    simp [hlen32]
  have hf35nd : ∀ ch ∈ b32encode (db ++ compute_partial_signature db s) ++ ['A', 'K', 'T'],
      (ch != '-') = true := by
    intro ch hch
    rcases List.mem_append.mp hch with h | h
    · exact b32alphabet_ne_dash ch (hmem ch h)
    · simp only [List.mem_cons, List.not_mem_nil, or_false] at h
      rcases h with rfl | rfl | rfl <;> rfl
  have hfilter := filter_pretty_format _ hf35len hf35nd
  have hdec32 : b32decode (b32encode (db ++ compute_partial_signature db s))
      = some (db ++ compute_partial_signature db s) := by
    have hcsl : ((beDigits 32 32 (beVal 256 (db ++ compute_partial_signature db s))).map
        b32charOfDigit).length = 32 := by simp [beDigits_length]
    have hround := beDigits_beVal 256 (db ++ compute_partial_signature db s) (by norm_num) hcomb_lt
    rw [hcomb_len] at hround
    rw [hdig, b32decode]
    rw [optMap_map _ _ _ (fun a ha => b32_digit_char a (hdiglt a ha))]
    simp only [hcsl]
    norm_num
    rw [beVal_beDigits _ _ _ (by norm_num), Nat.mod_eq_of_lt hN32, hround]
  refine ⟨hlen32, hmem, hfilter, hdec32, ?_⟩
  rw [decode_novel_key, hfilter]
  rw [decode_raw]
  simp only [hf35len]
  norm_num
  rw [List.take_left' hlen32, hdec32]
  simp only [hcomb_len]
  norm_num [TOTAL_SIZE, DATA_SIZE, SIG_SIZE]
  rw [List.take_left' hdb, List.drop_left' hdb]
  simp

theorem pack_data_eq (c e : Int) (d : Bool) (r f : Nat)
    (hc0 : 0 ≤ c) (hc : c < 4294967296) (he0 : 0 ≤ e) (he : e < 4294967296) :
    pack_data c e d r f = some (beDigits 256 4 c.toNat ++ beDigits 256 4 e.toNat ++
      [(r <<< 1) ||| (if d then 1 else 0), f]) := by
  simp only [pack_data, intToBytes4]
  rw [if_pos hc0, if_pos (show c.toNat < 4294967296 by omega),
      if_pos he0, if_pos (show e.toNat < 4294967296 by omega)]

theorem unpack_pack (cN eN : Nat) (d : Bool) (r f : Nat)
    (hcN : cN < 4294967296) (heN : eN < 4294967296) (hr : r < 128) :
    unpack_data (beDigits 256 4 cN ++ beDigits 256 4 eN ++ [(r <<< 1) ||| (if d then 1 else 0), f])
      = some (cN, eN, d) := by
  have h4c : (beDigits 256 4 cN).length = 4 := beDigits_length 256 4 cN
  have h4e : (beDigits 256 4 eN).length = 4 := beDigits_length 256 4 eN
  have hlen : (beDigits 256 4 cN ++ beDigits 256 4 eN ++
      [(r <<< 1) ||| (if d then 1 else 0), f]).length = 10 := by
    simp [beDigits_length]
  have habit1 : (if d then (1 : Nat) else 0) ≤ 1 := by cases d <;> simp
  rw [unpack_data, if_neg (by simp [beDigits_length])]
  rw [List.append_assoc]
  rw [List.take_left' h4c, List.drop_left' h4c, List.take_left' h4e]
  rw [beVal_beDigits _ _ _ (by norm_num), beVal_beDigits _ _ _ (by norm_num)]
  rw [Nat.mod_eq_of_lt (by norm_num [hcN]), Nat.mod_eq_of_lt (by norm_num [heN])]
  have hgd : (beDigits 256 4 cN ++ (beDigits 256 4 eN ++
      [(r <<< 1) ||| (if d then 1 else 0), f])).getD 8 0 = (r <<< 1) ||| (if d then 1 else 0) := by
    rw [List.getD_append_right _ _ _ _ (by omega), h4c]
    rw [List.getD_append_right _ _ _ _ (by omega), h4e]
    rfl
  rw [hgd]
  have hbit := flag_and_one r hr (if d then 1 else 0) habit1
  rw [hbit]
  cases d <;> rfl

theorem encode_decode (c e : Int) (d : Bool) (s : List Nat) (r f now : Nat)
    (hc0 : 0 ≤ c) (hc : c < 4294967296) (he0 : 0 ≤ e) (he : e < 4294967296)
    (hr : r < 128) (hf : f < 256) :
    ∃ db k,
      pack_data c e d r f = some db ∧ db.length = 10 ∧
      (compute_partial_signature db s).length = 10 ∧
      encode_novel_key c e d s r f = some k ∧
      k = pretty_format (b32encode (db ++ compute_partial_signature db s) ++ ['A', 'K', 'T']) ∧
      (b32encode (db ++ compute_partial_signature db s)).length = 32 ∧
      (∀ ch ∈ b32encode (db ++ compute_partial_signature db s), ch ∈ b32alphabet) ∧
      k.filter (fun ch => ch != '-') = b32encode (db ++ compute_partial_signature db s) ++ ['A', 'K', 'T'] ∧
      b32decode (b32encode (db ++ compute_partial_signature db s)) = some (db ++ compute_partial_signature db s) ∧
      decode_novel_key k s now =
        (if now > e.toNat then Except.error KeyError.expired
         else Except.ok ⟨c.toNat, e.toNat, d⟩) := by
  have hpack := pack_data_eq c e d r f hc0 hc he0 he
  have habit1 : (if d then (1 : Nat) else 0) ≤ 1 := by cases d <;> simp
  have hdblen : (beDigits 256 4 c.toNat ++ beDigits 256 4 e.toNat ++
      [(r <<< 1) ||| (if d then 1 else 0), f]).length = 10 := by simp [beDigits_length]
  have hdlt : ∀ x ∈ beDigits 256 4 c.toNat ++ beDigits 256 4 e.toNat ++
      [(r <<< 1) ||| (if d then 1 else 0), f], x < 256 := by
    intro x hx
    simp only [List.mem_append, List.mem_cons, List.not_mem_nil, or_false] at hx
    rcases hx with (hx | hx) | hx | hx
    · exact beDigits_lt _ _ _ (by norm_num) x hx
    · exact beDigits_lt _ _ _ (by norm_num) x hx
    · subst hx; exact flag_lt256 r hr _ habit1
    · subst hx; exact hf
  obtain ⟨hlen32, hmem, hfilter, hdec32, hdecode⟩ := decode_format _ s now hdblen hdlt
  have hup := unpack_pack c.toNat e.toNat d r f (by omega) (by omega) hr
  have henc : encode_novel_key c e d s r f = some (pretty_format
      (b32encode ((beDigits 256 4 c.toNat ++ beDigits 256 4 e.toNat ++
        [(r <<< 1) ||| (if d then 1 else 0), f]) ++
        compute_partial_signature (beDigits 256 4 c.toNat ++ beDigits 256 4 e.toNat ++
          [(r <<< 1) ||| (if d then 1 else 0), f]) s) ++ ['A', 'K', 'T'])) := by
    unfold encode_novel_key
    rw [hpack]
  refine ⟨_, _, hpack, hdblen, sig_length _ _, henc, rfl, hlen32, hmem, hfilter, hdec32, ?_⟩
  rw [hdecode, hup]

/-- Successful base-32 decoding yields bytes. -/
theorem b32decode_lt (cs : List Char) (bs : List Nat) (h : b32decode cs = some bs) :
    ∀ x ∈ bs, x < 256 := by
  unfold b32decode at h
  split at h
  · split at h
    · rw [Option.some.injEq] at h
      subst h
      exact beDigits_lt _ _ _ (by norm_num)
    · exact Option.noConfusion h
  · exact Option.noConfusion h

theorem unpack_data_inv (dbk : List Nat) (ca ea : Nat) (ad : Bool)
    (hlt : ∀ x ∈ dbk, x < 256) (h : unpack_data dbk = some (ca, ea, ad)) :
    ca < 4294967296 ∧ ea < 4294967296 := by
  unfold unpack_data at h
  split at h
  · exact Option.noConfusion h
  next hlen =>
    have hlen10 : dbk.length = 10 := not_ne_iff.mp hlen
    rw [Option.some.injEq, Prod.mk.injEq, Prod.mk.injEq] at h
    obtain ⟨hca, hea, -⟩ := h
    constructor
    · have hl : (dbk.take 4).length = 4 := by rw [List.length_take]; omega
      have hb := beVal_lt 256 (dbk.take 4) (by norm_num)
        (fun x hx => hlt x (List.take_subset _ _ hx))
      rw [hl] at hb
      norm_num at hb
      omega
    · have hl : ((dbk.drop 4).take 4).length = 4 := by
        rw [List.length_take, List.length_drop]; omega
      have hb := beVal_lt 256 ((dbk.drop 4).take 4) (by norm_num)
        (fun x hx => hlt x (List.drop_subset _ _ (List.take_subset _ _ hx)))
      rw [hl] at hb
      norm_num at hb
      omega

theorem decode_ok_inv (k : List Char) (s : List Nat) (now : Nat) (info : DecodedKey)
    (h : decode_novel_key k s now = Except.ok info) :
    info.created_at < 4294967296 ∧ info.expires_at < 4294967296 ∧ now ≤ info.expires_at ∧
      (k.filter (fun c => c != '-')).length = 35 := by
  unfold decode_novel_key decode_raw at h
  split at h
  · exact Except.noConfusion h
  next h35 =>
    have h35' : (k.filter (fun c => c != '-')).length = 35 := not_ne_iff.mp h35
    simp only [h35'] at h
    split at h
    next heq => exact Except.noConfusion h
    next combined heq =>
      split at h
      · exact Except.noConfusion h
      next hlen =>
        split at h
        · exact Except.noConfusion h
        next hsig =>
          split at h
          · exact Except.noConfusion h
          next ca ea ad hup =>
            split at h
            · exact Except.noConfusion h
            next hexp =>
              rw [Except.ok.injEq] at h
              subst h
              have hclt := b32decode_lt _ _ heq
              have hbounds := unpack_data_inv _ _ _ _
                (fun x hx => hclt x (List.take_subset _ _ hx)) hup
              exact ⟨hbounds.1, hbounds.2, (by omega : now ≤ ea), h35'⟩

/-- The concrete key `wkey` really is the encoding of `(5, 10, false)` under
the empty secret, and decodes accordingly at time 9. -/
theorem wkey_spec :
    encode_novel_key 5 10 false [] 3 7 = some wkey ∧
    decode_novel_key wkey [] 9 = Except.ok ⟨5, 10, false⟩ := by
  obtain ⟨db, k, -, -, -, henc, -, -, -, -, -, hdec⟩ :=
    encode_decode 5 10 false [] 3 7 9 (by decide) (by decide) (by decide) (by decide)
      (by decide) (by decide)
  have hk : wkey = k := by rw [wkey, henc]; rfl
  constructor
  · rw [hk]; exact henc
  · rw [hk, hdec]
    rfl

/-- Decoding then re-encoding with the flag forced to `b` succeeds and the
new key decodes to the same timestamps with flag `b` (the common content of
`set_agent_deployed` and `set_agent_down`). -/
theorem toggle_ok (k : List Char) (s : List Nat) (now r f : Nat) (info : DecodedKey)
    (b : Bool) (h : decode_novel_key k s now = Except.ok info) (hr : r < 128) (hf : f < 256) :
    ∃ k2, encode_novel_key (info.created_at : Int) (info.expires_at : Int) b s r f = some k2 ∧
      decode_novel_key k2 s now = Except.ok ⟨info.created_at, info.expires_at, b⟩ := by
  obtain ⟨hcb, heb, hnow, -⟩ := decode_ok_inv k s now info h
  obtain ⟨db, k2, -, -, -, henc, -, -, -, -, -, hdec⟩ :=
    encode_decode (info.created_at : Int) (info.expires_at : Int) b s r f now
      (Int.natCast_nonneg _) (by exact_mod_cast hcb)
      (Int.natCast_nonneg _) (by exact_mod_cast heb) hr hf
  refine ⟨k2, henc, ?_⟩
  rw [hdec, Int.toNat_natCast, Int.toNat_natCast, if_neg (by omega)]

/-- `set_agent_deployed` on a valid key succeeds and the result decodes to
the same timestamps with the flag true. -/
theorem set_agent_deployed_ok (k : List Char) (s : List Nat) (now r f : Nat)
    (info : DecodedKey) (h : decode_novel_key k s now = Except.ok info)
    (hr : r < 128) (hf : f < 256) :
    ∃ k2, set_agent_deployed k s now r f = Except.ok k2 ∧
      decode_novel_key k2 s now = Except.ok ⟨info.created_at, info.expires_at, true⟩ := by
  obtain ⟨k2, henc, hdec⟩ := toggle_ok k s now r f info true h hr hf
  refine ⟨k2, ?_, hdec⟩
  have hred : set_agent_deployed k s now r f =
      (match encode_novel_key (info.created_at : Int) (info.expires_at : Int) true s r f with
       | some k2 => Except.ok k2
       | none => Except.error KeyError.overflow) := by
    rw [set_agent_deployed, h]
  rw [hred, henc]

/-- `set_agent_down` on a valid key succeeds and the result decodes to the
same timestamps with the flag false. -/
theorem set_agent_down_ok (k : List Char) (s : List Nat) (now r f : Nat)
    (info : DecodedKey) (h : decode_novel_key k s now = Except.ok info)
    (hr : r < 128) (hf : f < 256) :
    ∃ k2, set_agent_down k s now r f = Except.ok k2 ∧
      decode_novel_key k2 s now = Except.ok ⟨info.created_at, info.expires_at, false⟩ := by
  obtain ⟨k2, henc, hdec⟩ := toggle_ok k s now r f info false h hr hf
  refine ⟨k2, ?_, hdec⟩
  have hred : set_agent_down k s now r f =
      (match encode_novel_key (info.created_at : Int) (info.expires_at : Int) false s r f with
       | some k2 => Except.ok k2
       | none => Except.error KeyError.overflow) := by
    rw [set_agent_down, h]
  rw [hred, henc]

/-- Parsing ignores everything but the length and the first 32 characters of
the dash-stripped string (the last 3 characters are dropped unexamined). -/
theorem decode_raw_congr (raw1 raw2 : List Char) (s : List Nat) (now : Nat)
    (h1 : raw1.length = 35) (h2 : raw2.length = 35) (ht : raw1.take 32 = raw2.take 32) :
    decode_raw raw1 s now = decode_raw raw2 s now := by
  unfold decode_raw
  simp only [h1, h2]
  norm_num
  rw [ht]

/-- Validation outcome `expired` happens exactly when the pre-expiry phase
succeeds and the clock has passed the decoded `expires_at` (validating at
time 0 never trips the expiry check, so it exposes the pre-expiry phase). -/
theorem expired_iff (k : List Char) (s : List Nat) (now : Nat) :
    decode_novel_key k s now = Except.error KeyError.expired ↔
      ∃ rec : DecodedKey, decode_novel_key k s 0 = Except.ok rec ∧ now > rec.expires_at := by
  unfold decode_novel_key decode_raw
  by_cases h35 : (k.filter (fun c => c != '-')).length ≠ 35
  · simp [h35]
  · simp only [h35, if_false]
    rcases hb : b32decode ((k.filter (fun c => c != '-')).take
        ((k.filter (fun c => c != '-')).length - 3)) with _ | combined
    · simp
    · by_cases hlen : combined.length ≠ TOTAL_SIZE
      · simp [hlen]
      · simp only [hlen, if_false]
        by_cases hsig : combined.drop DATA_SIZE ≠
            compute_partial_signature (combined.take DATA_SIZE) s
        · simp [hsig]
        · simp only [hsig, if_false]
          rcases hup : unpack_data (combined.take DATA_SIZE) with _ | ⟨ca, ea, ad⟩
          · simp
          · by_cases hexp : now > ea
            · simp only [hexp, if_true]
              constructor
              · intro _
                exact ⟨⟨ca, ea, ad⟩, by norm_num, hexp⟩
              · intro _
                trivial
            · simp only [hexp, if_false]
              constructor
              · intro hcon
                exact absurd hcon (by simp)
              · rintro ⟨rec, hrec, hgt⟩
                norm_num at hrec
                subst hrec
                exact absurd hgt hexp

/-- C1: Round-trip.  For every `created_at` and `expires_at` representable as
unsigned 32-bit integers and every boolean `deployed`, if `expires_at` is not
in the past at validation time, then decoding the key produced by
`encode_novel_key` under the same secret succeeds and returns exactly the
same `(created_at, expires_at, agent_deployed)` fields, for every draw of the
random padding bits. -/
theorem C1_round_trip (created_at expires_at : Int) (agent_deployed : Bool)
    (server_secret : List Nat) (random_7bits filler_byte now : Nat) (k : List Char)
    (hc0 : 0 ≤ created_at) (hc : created_at < 4294967296)
    (he0 : 0 ≤ expires_at) (he : expires_at < 4294967296)
    (hr : random_7bits < 128) (hf : filler_byte < 256)
    (hnow : now ≤ expires_at.toNat)
    (hk : encode_novel_key created_at expires_at agent_deployed server_secret
      random_7bits filler_byte = some k) :
    decode_novel_key k server_secret now =
      Except.ok ⟨created_at.toNat, expires_at.toNat, agent_deployed⟩ := by
  obtain ⟨db, k0, -, -, -, henc, -, -, -, -, -, hdec⟩ :=
    encode_decode created_at expires_at agent_deployed server_secret random_7bits
      filler_byte now hc0 hc he0 he hr hf
  rw [hk] at henc
  rw [Option.some.injEq] at henc
  subst henc
  rw [hdec, if_neg (by omega)]

/-- C1 witness: the concrete key `wkey` (created 5, expires 10, not deployed,
empty secret, padding draws 3 and 7) round-trips at time 9. -/
theorem C1_round_trip_witness :
    ((0 : Int) ≤ 5 ∧ (5 : Int) < 4294967296 ∧ (0 : Int) ≤ 10 ∧ (10 : Int) < 4294967296 ∧
      3 < 128 ∧ 7 < 256 ∧ 9 ≤ (10 : Int).toNat ∧
      encode_novel_key 5 10 false [] 3 7 = some wkey) ∧
    decode_novel_key wkey [] 9 = Except.ok ⟨(5 : Int).toNat, (10 : Int).toNat, false⟩ :=
  ⟨⟨by decide, by decide, by decide, by decide, by decide, by decide, by decide, wkey_spec.1⟩,
   C1_round_trip 5 10 false [] 3 7 9 wkey (by decide) (by decide) (by decide) (by decide)
     (by decide) (by decide) (by decide) wkey_spec.1⟩

/-- C9: Separator-placement insensitivity.  `decode_novel_key` removes every
hyphen wherever it occurs before any length check, so two inputs whose
non-hyphen characters agree — whatever the number and position of their
hyphens, including none — decode identically; the 7-groups-of-5 grouping is
never enforced. -/
theorem C9_separator_insensitivity (k1 k2 : List Char) (server_secret : List Nat) (now : Nat)
    (h : k1.filter (fun c => c != '-') = k2.filter (fun c => c != '-')) :
    decode_novel_key k1 server_secret now = decode_novel_key k2 server_secret now := by
  show decode_raw (k1.filter (fun c => c != '-')) server_secret now
    = decode_raw (k2.filter (fun c => c != '-')) server_secret now
  rw [h]

/-- C9 witness: `"AB"` and `"-A--B-"` have the same non-hyphen characters and
decode identically. -/
theorem C9_separator_insensitivity_witness :
    (['A', 'B'] : List Char).filter (fun c => c != '-') =
      (['-', 'A', '-', '-', 'B', '-'] : List Char).filter (fun c => c != '-') ∧
    decode_novel_key ['A', 'B'] [] 0 = decode_novel_key ['-', 'A', '-', '-', 'B', '-'] [] 0 :=
  ⟨by decide, C9_separator_insensitivity ['A', 'B'] ['-', 'A', '-', '-', 'B', '-'] [] 0 (by decide)⟩

/-- C7: Suffix leniency.  During parsing the final 3 characters of the
35-character de-hyphenated key string are dropped without being compared to
the expected `"AKT"` suffix: replacing the last 3 non-separator characters of
a validating key by any 3 separator-free characters (under any hyphen
placement) yields the same validation result and the same decoded fields. -/
theorem C7_suffix_leniency (k k2 : List Char) (server_secret : List Nat) (now : Nat)
    (info : DecodedKey) (s3 : List Char)
    (hval : decode_novel_key k server_secret now = Except.ok info)
    (hs3len : s3.length = 3) (hs3 : ∀ c ∈ s3, (c != '-') = true)
    (hk2 : k2.filter (fun c => c != '-') = (k.filter (fun c => c != '-')).take 32 ++ s3) :
    decode_novel_key k2 server_secret now = decode_novel_key k server_secret now ∧
    decode_novel_key k2 server_secret now = Except.ok info := by
  have h35 := (decode_ok_inv k server_secret now info hval).2.2.2
  have hTlen : ((k.filter (fun c => c != '-')).take 32).length = 32 := by
    rw [List.length_take]; omega
  have h35' : (k2.filter (fun c => c != '-')).length = 35 := by
    rw [hk2, List.length_append, hTlen, hs3len]
  have htake : (k2.filter (fun c => c != '-')).take 32 = (k.filter (fun c => c != '-')).take 32 := by
    rw [hk2, List.take_left' hTlen]
  have key : decode_novel_key k2 server_secret now = decode_novel_key k server_secret now := by
    show decode_raw (k2.filter (fun c => c != '-')) server_secret now
      = decode_raw (k.filter (fun c => c != '-')) server_secret now
    exact decode_raw_congr _ _ _ _ h35' h35 htake
  exact ⟨key, key.trans hval⟩

/-- Appending separator-free characters to a separator-free prefix stays
separator-free under the dash filter. -/
theorem filter_take_suffix (raw s3 : List Char) (hs3 : ∀ c ∈ s3, (c != '-') = true) :
    ((raw.filter (fun c => c != '-')).take 32 ++ s3).filter (fun c => c != '-')
      = (raw.filter (fun c => c != '-')).take 32 ++ s3 := by
  rw [List.filter_eq_self]
  intro a ha
  rcases List.mem_append.mp ha with h | h
  · have h2 : a ∈ raw.filter (fun c => c != '-') := List.take_subset 32 _ h
    exact (List.mem_filter.mp h2).2
  · exact hs3 a h

/-- C7 witness: replacing the dropped suffix of `wkey` by `"ZZZ"` leaves the
decode outcome unchanged. -/
theorem C7_suffix_leniency_witness :
    decode_novel_key wkey [] 9 = Except.ok ⟨5, 10, false⟩ ∧
    (['Z', 'Z', 'Z'] : List Char).length = 3 ∧
    (∀ c ∈ (['Z', 'Z', 'Z'] : List Char), (c != '-') = true) ∧
    ((wkey.filter (fun c => c != '-')).take 32 ++ ['Z', 'Z', 'Z']).filter (fun c => c != '-')
      = (wkey.filter (fun c => c != '-')).take 32 ++ ['Z', 'Z', 'Z'] ∧
    decode_novel_key ((wkey.filter (fun c => c != '-')).take 32 ++ ['Z', 'Z', 'Z']) [] 9
      = decode_novel_key wkey [] 9 ∧
    decode_novel_key ((wkey.filter (fun c => c != '-')).take 32 ++ ['Z', 'Z', 'Z']) [] 9
      = Except.ok ⟨5, 10, false⟩ := by
  have hfe := filter_take_suffix wkey ['Z', 'Z', 'Z']
    (by intro c hc; simp only [List.mem_cons, List.not_mem_nil, or_false] at hc
        rcases hc with rfl | rfl | rfl <;> rfl)
  have happ := C7_suffix_leniency wkey ((wkey.filter (fun c => c != '-')).take 32 ++
      ['Z', 'Z', 'Z']) [] 9 ⟨5, 10, false⟩ ['Z', 'Z', 'Z'] wkey_spec.2 (by decide)
      (by decide) hfe
  exact ⟨wkey_spec.2, by decide, by decide, hfe, happ.1, happ.2⟩

/-- C10: Timestamp range precondition.  `pack_data` fails (the 4-byte
big-endian conversion raises `OverflowError`) exactly when `created_at` or
`expires_at` is negative or at least `2^32`; it never truncates or wraps.
Under the precondition both conversions succeed and the block is exactly 10
bytes. -/
theorem C10_pack_range (created_at expires_at : Int) (agent_deployed : Bool)
    (random_7bits filler_byte : Nat) :
    (pack_data created_at expires_at agent_deployed random_7bits filler_byte = none ↔
      created_at < 0 ∨ 4294967296 ≤ created_at ∨ expires_at < 0 ∨ 4294967296 ≤ expires_at) ∧
    ((0 ≤ created_at ∧ created_at < 4294967296 ∧ 0 ≤ expires_at ∧ expires_at < 4294967296) →
      ∃ db, pack_data created_at expires_at agent_deployed random_7bits filler_byte = some db ∧
        db.length = 10) := by
  constructor
  · unfold pack_data intToBytes4
    split_ifs with h1 h2 h3 h4 <;> simp <;> omega
  · rintro ⟨hc0, hc, he0, he⟩
    exact ⟨_, pack_data_eq _ _ _ _ _ hc0 hc he0 he, by simp [beDigits_length]⟩

/-- C10 witness: `created_at = -1` fails; `(1, 2)` packs to 10 bytes. -/
theorem C10_pack_range_witness :
    pack_data (-1) 0 false 0 0 = none ∧
    ((0 : Int) ≤ 1 ∧ (1 : Int) < 4294967296 ∧ (0 : Int) ≤ 2 ∧ (2 : Int) < 4294967296) ∧
    ∃ db, pack_data 1 2 false 0 0 = some db ∧ db.length = 10 :=
  ⟨(C10_pack_range (-1) 0 false 0 0).1.mpr (Or.inl (by decide)),
   ⟨by decide, by decide, by decide, by decide⟩,
   (C10_pack_range 1 2 false 0 0).2 ⟨by decide, by decide, by decide, by decide⟩⟩

/-- C3: Toggle preserves timestamps.  For every key that validates, both
`set_agent_deployed` and `set_agent_down` succeed and produce keys that
validate to the same `created_at` and `expires_at`; only the
`agent_deployed` field (and the fresh padding/signature bytes) differ. -/
theorem C3_toggle_preserves_timestamps (k : List Char) (server_secret : List Nat)
    (now r1 f1 r2 f2 : Nat) (info : DecodedKey)
    (h : decode_novel_key k server_secret now = Except.ok info)
    (hr1 : r1 < 128) (hf1 : f1 < 256) (hr2 : r2 < 128) (hf2 : f2 < 256) :
    (∃ k2, set_agent_deployed k server_secret now r1 f1 = Except.ok k2 ∧
      decode_novel_key k2 server_secret now =
        Except.ok ⟨info.created_at, info.expires_at, true⟩) ∧
    (∃ k3, set_agent_down k server_secret now r2 f2 = Except.ok k3 ∧
      decode_novel_key k3 server_secret now =
        Except.ok ⟨info.created_at, info.expires_at, false⟩) :=
  ⟨set_agent_deployed_ok k server_secret now r1 f1 info h hr1 hf1,
   set_agent_down_ok k server_secret now r2 f2 info h hr2 hf2⟩

/-- C3 witness: toggling the concrete key `wkey` both ways preserves its
timestamps `(5, 10)`. -/
theorem C3_toggle_preserves_timestamps_witness :
    (decode_novel_key wkey [] 9 = Except.ok ⟨5, 10, false⟩ ∧
      3 < 128 ∧ 7 < 256 ∧ 4 < 128 ∧ 8 < 256) ∧
    (∃ k2, set_agent_deployed wkey [] 9 3 7 = Except.ok k2 ∧
      decode_novel_key k2 [] 9 = Except.ok ⟨5, 10, true⟩) ∧
    (∃ k3, set_agent_down wkey [] 9 4 8 = Except.ok k3 ∧
      decode_novel_key k3 [] 9 = Except.ok ⟨5, 10, false⟩) :=
  ⟨⟨wkey_spec.2, by decide, by decide, by decide, by decide⟩,
   C3_toggle_preserves_timestamps wkey [] 9 3 7 4 8 ⟨5, 10, false⟩ wkey_spec.2
     (by decide) (by decide) (by decide) (by decide)⟩

/-- C4: Toggle idempotence.  Applying `set_agent_deployed` twice yields keys
whose decoded fields coincide (flag true in both, timestamps unchanged);
only the padding bytes and hence the MAC/encoding may differ between the two
key strings. -/
theorem C4_toggle_idempotent (k : List Char) (server_secret : List Nat)
    (now r1 f1 r2 f2 : Nat) (info : DecodedKey)
    (h : decode_novel_key k server_secret now = Except.ok info)
    (hr1 : r1 < 128) (hf1 : f1 < 256) (hr2 : r2 < 128) (hf2 : f2 < 256) :
    ∃ k1 k2, set_agent_deployed k server_secret now r1 f1 = Except.ok k1 ∧
      set_agent_deployed k1 server_secret now r2 f2 = Except.ok k2 ∧
      decode_novel_key k1 server_secret now =
        Except.ok ⟨info.created_at, info.expires_at, true⟩ ∧
      decode_novel_key k2 server_secret now =
        Except.ok ⟨info.created_at, info.expires_at, true⟩ := by
  obtain ⟨k1, hs1, hd1⟩ := set_agent_deployed_ok k server_secret now r1 f1 info h hr1 hf1
  obtain ⟨k2, hs2, hd2⟩ := set_agent_deployed_ok k1 server_secret now r2 f2 _ hd1 hr2 hf2
  exact ⟨k1, k2, hs1, hs2, hd1, hd2⟩

/-- C4 witness: deploying `wkey` twice gives two keys with identical decoded
fields `(5, 10, true)`. -/
theorem C4_toggle_idempotent_witness :
    (decode_novel_key wkey [] 9 = Except.ok ⟨5, 10, false⟩ ∧
      3 < 128 ∧ 7 < 256 ∧ 4 < 128 ∧ 8 < 256) ∧
    (∃ k1 k2, set_agent_deployed wkey [] 9 3 7 = Except.ok k1 ∧
      set_agent_deployed k1 [] 9 4 8 = Except.ok k2 ∧
      decode_novel_key k1 [] 9 = Except.ok ⟨5, 10, true⟩ ∧
      decode_novel_key k2 [] 9 = Except.ok ⟨5, 10, true⟩) :=
  ⟨⟨wkey_spec.2, by decide, by decide, by decide, by decide⟩,
   C4_toggle_idempotent wkey [] 9 3 7 4 8 ⟨5, 10, false⟩ wkey_spec.2
     (by decide) (by decide) (by decide) (by decide)⟩

/-- C5: Expiration.  A key whose signature (and format) checks pass fails
with the `expired` error exactly when the supplied current time strictly
exceeds its `expires_at`; a key issued with `expires_at = now - 1` is
rejected as expired, while a key with `expires_at = now` still validates. -/
theorem C5_expiration (k : List Char) (server_secret : List Nat) (now : Nat)
    (created_at : Int) (agent_deployed : Bool) (random_7bits filler_byte : Nat)
    (hc0 : 0 ≤ created_at) (hc : created_at < 4294967296)
    (hnow1 : 1 ≤ now) (hnow : now < 4294967296)
    (hr : random_7bits < 128) (hf : filler_byte < 256) :
    (decode_novel_key k server_secret now = Except.error KeyError.expired ↔
      ∃ rec : DecodedKey, decode_novel_key k server_secret 0 = Except.ok rec ∧
        now > rec.expires_at) ∧
    (encode_novel_key created_at ((now : Int) - 1) agent_deployed server_secret
        random_7bits filler_byte).map (fun k2 => decode_novel_key k2 server_secret now)
      = some (Except.error KeyError.expired) ∧
    (encode_novel_key created_at (now : Int) agent_deployed server_secret
        random_7bits filler_byte).map (fun k2 => decode_novel_key k2 server_secret now)
      = some (Except.ok ⟨created_at.toNat, now, agent_deployed⟩) := by
  refine ⟨expired_iff k server_secret now, ?_, ?_⟩
  · obtain ⟨db, k2, -, -, -, henc, -, -, -, -, -, hdec⟩ :=
      encode_decode created_at ((now : Int) - 1) agent_deployed server_secret
        random_7bits filler_byte now hc0 hc (by omega) (by omega) hr hf
    rw [henc, Option.map_some', hdec, if_pos (by omega)]
  · obtain ⟨db, k2, -, -, -, henc, -, -, -, -, -, hdec⟩ :=
      encode_decode created_at (now : Int) agent_deployed server_secret
        random_7bits filler_byte now hc0 hc (by omega) (by omega) hr hf
    rw [henc, Option.map_some', hdec, if_neg (by omega), Int.toNat_natCast]

/-- C5 witness: at time 10 a key expiring at 9 is expired, one expiring at 10
validates, and the iff instance holds for the concrete key `wkey`. -/
theorem C5_expiration_witness :
    ((0 : Int) ≤ 5 ∧ (5 : Int) < 4294967296 ∧ 1 ≤ 10 ∧ 10 < 4294967296 ∧
      3 < 128 ∧ 7 < 256) ∧
    ((decode_novel_key wkey [] 10 = Except.error KeyError.expired ↔
      ∃ rec : DecodedKey, decode_novel_key wkey [] 0 = Except.ok rec ∧ 10 > rec.expires_at) ∧
    (encode_novel_key 5 ((10 : Int) - 1) false [] 3 7).map
        (fun k2 => decode_novel_key k2 [] 10) = some (Except.error KeyError.expired) ∧
    (encode_novel_key 5 (10 : Int) false [] 3 7).map
        (fun k2 => decode_novel_key k2 [] 10)
      = some (Except.ok ⟨(5 : Int).toNat, 10, false⟩)) :=
  ⟨⟨by decide, by decide, by decide, by decide, by decide, by decide⟩,
   C5_expiration wkey [] 10 5 false 3 7 (by decide) (by decide) (by decide) (by decide)
     (by decide) (by decide)⟩

/-- C6: Issue configuration.  `create_novel_activation_key` issues a key with
`created_at` equal to the supplied wall-clock time, `agent_deployed` false,
and `expires_at = created_at + ONE_YEAR_SECONDS` where `ONE_YEAR_SECONDS` is
the fixed 365-day default; the window is overridable per issuance by calling
the issuing encoder `encode_novel_key` with any other `expires_at`. -/
theorem C6_issue_configuration (server_secret : List Nat) (now r f W : Nat)
    (h1 : now + ONE_YEAR_SECONDS < 4294967296) (hW : now + W < 4294967296)
    (hr : r < 128) (hf : f < 256) :
    create_novel_activation_key server_secret now r f
      = encode_novel_key (now : Int) ((now + ONE_YEAR_SECONDS : Nat) : Int) false
          server_secret r f ∧
    ONE_YEAR_SECONDS = 365 * 24 * 60 * 60 ∧
    (create_novel_activation_key server_secret now r f).map
        (fun k => decode_novel_key k server_secret now)
      = some (Except.ok ⟨now, now + ONE_YEAR_SECONDS, false⟩) ∧
    (encode_novel_key (now : Int) ((now + W : Nat) : Int) false server_secret r f).map
        (fun k => decode_novel_key k server_secret now)
      = some (Except.ok ⟨now, now + W, false⟩) := by
  refine ⟨rfl, rfl, ?_, ?_⟩
  · obtain ⟨db, k, -, -, -, henc, -, -, -, -, -, hdec⟩ :=
      encode_decode (now : Int) ((now + ONE_YEAR_SECONDS : Nat) : Int) false server_secret
        r f now (Int.natCast_nonneg _) (by exact_mod_cast (by omega : now < 4294967296))
        (Int.natCast_nonneg _) (by exact_mod_cast h1) hr hf
    rw [create_novel_activation_key, henc, Option.map_some', hdec, Int.toNat_natCast,
        Int.toNat_natCast, if_neg (by omega)]
  · obtain ⟨db, k, -, -, -, henc, -, -, -, -, -, hdec⟩ :=
      encode_decode (now : Int) ((now + W : Nat) : Int) false server_secret
        r f now (Int.natCast_nonneg _) (by exact_mod_cast (by omega : now < 4294967296))
        (Int.natCast_nonneg _) (by exact_mod_cast hW) hr hf
    rw [henc, Option.map_some', hdec, Int.toNat_natCast, Int.toNat_natCast,
        if_neg (by omega)]

/-- C6 witness: issuing at time 20 with the default window and with the
override window 30. -/
theorem C6_issue_configuration_witness :
    (20 + ONE_YEAR_SECONDS < 4294967296 ∧ 20 + 30 < 4294967296 ∧ 3 < 128 ∧ 7 < 256) ∧
    (create_novel_activation_key [] 20 3 7
      = encode_novel_key (20 : Int) ((20 + ONE_YEAR_SECONDS : Nat) : Int) false [] 3 7 ∧
    ONE_YEAR_SECONDS = 365 * 24 * 60 * 60 ∧
    (create_novel_activation_key [] 20 3 7).map (fun k => decode_novel_key k [] 20)
      = some (Except.ok ⟨20, 20 + ONE_YEAR_SECONDS, false⟩) ∧
    (encode_novel_key (20 : Int) ((20 + 30 : Nat) : Int) false [] 3 7).map
        (fun k => decode_novel_key k [] 20)
      = some (Except.ok ⟨20, 20 + 30, false⟩)) :=
  ⟨⟨by decide, by decide, by decide, by decide⟩,
   C6_issue_configuration [] 20 3 7 30 (by decide) (by decide) (by decide) (by decide)⟩

/-- C2: Format invariants.  Every string produced by `encode_novel_key` has
exactly 35 non-separator characters arranged as 7 hyphen-separated groups of
5, consists only of RFC 4648 base-32 alphabet characters plus the fixed
3-character suffix `"AKT"`, its first 32 characters base-32-decode to exactly
20 bytes (the 10-byte record plus the 10-byte truncated MAC), and no padding
character `=` is ever produced. -/
theorem C2_format_invariants (created_at expires_at : Int) (agent_deployed : Bool)
    (server_secret : List Nat) (random_7bits filler_byte : Nat) (k : List Char)
    (hc0 : 0 ≤ created_at) (hc : created_at < 4294967296)
    (he0 : 0 ≤ expires_at) (he : expires_at < 4294967296)
    (hr : random_7bits < 128) (hf : filler_byte < 256)
    (hk : encode_novel_key created_at expires_at agent_deployed server_secret
      random_7bits filler_byte = some k) :
    (k.filter (fun ch => ch != '-')).length = 35 ∧
    (∃ parts : List (List Char), parts.length = 7 ∧
      (∀ p ∈ parts, p.length = 5 ∧ ∀ ch ∈ p, (ch != '-') = true) ∧
      k = List.intercalate ['-'] parts) ∧
    (∀ ch ∈ k.filter (fun ch => ch != '-'),
      ch ∈ b32alphabet ∨ ch ∈ (['A', 'K', 'T'] : List Char)) ∧
    (k.filter (fun ch => ch != '-')).drop 32 = ['A', 'K', 'T'] ∧
    (∃ db, pack_data created_at expires_at agent_deployed random_7bits filler_byte = some db ∧
      db.length = 10 ∧ (compute_partial_signature db server_secret).length = 10 ∧
      b32decode ((k.filter (fun ch => ch != '-')).take 32)
        = some (db ++ compute_partial_signature db server_secret) ∧
      (db ++ compute_partial_signature db server_secret).length = 20) ∧
    '=' ∉ k := by
  obtain ⟨db, k0, hpack, hdb10, hsig10, henc, hkfmt, hlen32, hmem, hfilter, hdec32, -⟩ :=
    encode_decode created_at expires_at agent_deployed server_secret random_7bits
      filler_byte 0 hc0 hc he0 he hr hf
  rw [hk, Option.some.injEq] at henc
  subst henc
  have hF35 : (b32encode (db ++ compute_partial_signature db server_secret)
      ++ ['A', 'K', 'T']).length = 35 := by simp [hlen32]
  have hFnd : ∀ ch ∈ b32encode (db ++ compute_partial_signature db server_secret)
      ++ ['A', 'K', 'T'], (ch != '-') = true := by
    intro ch hch
    rcases List.mem_append.mp hch with h | h
    · exact b32alphabet_ne_dash ch (hmem ch h)
    · simp only [List.mem_cons, List.not_mem_nil, or_false] at h
      rcases h with rfl | rfl | rfl <;> rfl
  refine ⟨?_, ?_, ?_, ?_, ⟨db, hpack, hdb10, hsig10, ?_, ?_⟩, ?_⟩
  · rw [hfilter]
    simp [hlen32]
  · refine ⟨pretty_chunks (b32encode (db ++ compute_partial_signature db server_secret)
      ++ ['A', 'K', 'T']), by simp [pretty_chunks], ?_, by rw [hkfmt]; rfl⟩
    intro p hp
    have hsub : ∀ i : Nat, ∀ ch ∈ ((b32encode (db ++ compute_partial_signature db
        server_secret) ++ ['A', 'K', 'T']).drop i).take 5, (ch != '-') = true :=
      fun i ch hch => hFnd ch (List.drop_subset _ _ (List.take_subset _ _ hch))
    simp only [pretty_chunks, List.mem_cons, List.not_mem_nil, or_false] at hp
    rcases hp with rfl | rfl | rfl | rfl | rfl | rfl | rfl <;>
      exact ⟨by simp [List.length_take, List.length_drop, hF35],
        fun ch hch => hsub _ ch hch⟩
  · intro ch hch
    rw [hfilter] at hch
    rcases List.mem_append.mp hch with h | h
    · exact Or.inl (hmem ch h)
    · exact Or.inr h
  · rw [hfilter, List.drop_left' hlen32]
  · rw [hfilter, List.take_left' hlen32]
    exact hdec32
  · rw [List.length_append, hdb10, hsig10]
  · intro hchk
    rw [hkfmt] at hchk
    rcases mem_pretty_format _ _ hchk with h | h
    · exact absurd h (by decide)
    · rcases List.mem_append.mp h with h2 | h2
      · exact eq_not_mem_b32alphabet (hmem _ h2)
      · exact absurd h2 (by decide)

/-- C2 witness: the format invariants instantiated at the concrete key
`wkey`. -/
theorem C2_format_invariants_witness :
    ((0 : Int) ≤ 5 ∧ (5 : Int) < 4294967296 ∧ (0 : Int) ≤ 10 ∧ (10 : Int) < 4294967296 ∧
      3 < 128 ∧ 7 < 256 ∧ encode_novel_key 5 10 false [] 3 7 = some wkey) ∧
    ((wkey.filter (fun ch => ch != '-')).length = 35 ∧
    (∃ parts : List (List Char), parts.length = 7 ∧
      (∀ p ∈ parts, p.length = 5 ∧ ∀ ch ∈ p, (ch != '-') = true) ∧
      wkey = List.intercalate ['-'] parts) ∧
    (∀ ch ∈ wkey.filter (fun ch => ch != '-'),
      ch ∈ b32alphabet ∨ ch ∈ (['A', 'K', 'T'] : List Char)) ∧
    (wkey.filter (fun ch => ch != '-')).drop 32 = ['A', 'K', 'T'] ∧
    (∃ db, pack_data 5 10 false 3 7 = some db ∧
      db.length = 10 ∧ (compute_partial_signature db []).length = 10 ∧
      b32decode ((wkey.filter (fun ch => ch != '-')).take 32)
        = some (db ++ compute_partial_signature db []) ∧
      (db ++ compute_partial_signature db []).length = 20) ∧
    '=' ∉ wkey) :=
  ⟨⟨by decide, by decide, by decide, by decide, by decide, by decide, wkey_spec.1⟩,
   C2_format_invariants 5 10 false [] 3 7 wkey (by decide) (by decide) (by decide)
     (by decide) (by decide) (by decide) wkey_spec.1⟩
